import Mathlib

/-!
# Shallow embedding of the easy_fx currency-quoting service

Embeds `src/fx/models.py`, `src/fx/forms.py`, `src/fx/views.py` and
`src/fx/services.py`.  Decimal values are modelled as exact rationals
(Python `Decimal` arithmetic on these operands is exact), timestamps as
rationals counting seconds.  Database tables are lists of rows; Django
ORM lookups become `List.find?` / `List.filter` over them.  Failure modes
of the external HTTP fetch are modelled as an explicit outcome datatype,
so that "the function never raises" becomes totality of the embedded
function, with every failure mapped to `none` exactly as the Python code
maps every exception to a `return None`.
-/

/-- `fx.models.Currency`: only the fields the core logic reads
(`code`, `active`); `code` is the primary key. -/
structure Currency where
  code : String
  active : Bool
  deriving Repr, DecidableEq

/-- `fx.models.Rate`: one row of the rate table.  `source`/`target` are
foreign keys to `Currency.code`; `last_updated` is the `auto_now`
timestamp. -/
structure Rate where
  source : String
  target : String
  mean : ℚ
  buying : ℚ
  selling : ℚ
  last_updated : ℚ
  deriving Repr, DecidableEq

/-- `fx.models.Quote`: one quote row.  `time_created`, `time_updated` and
`expiration_time` are `none` before the first save (Django fills
`auto_now_add` / `auto_now` fields and `Quote.save` fills
`expiration_time` at save time). -/
structure Quote where
  quote_id : Nat
  source_currency : String
  target_currency : String
  amount : ℚ
  rate : ℚ
  result : ℚ
  time_created : Option ℚ
  time_updated : Option ℚ
  expiration_time : Option ℚ
  deriving Repr, DecidableEq

/-- The database state: the three tables. -/
structure FxState where
  currencies : List Currency
  rates : List Rate
  quotes : List Quote
  deriving Repr, DecidableEq

/-- `settings.QUOTE_VALIDITY` default used by `Quote.save`
(`getattr(settings, 'QUOTE_VALIDITY', 60)`). -/
def QUOTE_VALIDITY_DEFAULT : ℚ := 60

/-- `fx.models.Quote.save`: set `expiration_time` to `now + validity`
only when it is unset, then run the base save (`auto_now_add` fills
`time_created` on insert, `auto_now` always overwrites `time_updated`). -/
def Quote.save (validity now : ℚ) (q : Quote) : Quote :=
  let q1 := if q.expiration_time = none
    then { q with expiration_time := some (now + validity) } else q
  { q1 with
      time_created := match q1.time_created with
        | none => some now
        | some t => some t,
      time_updated := some now }

/-- `fx.models.Quote.is_expired`: `timezone.now() > self.expiration_time`.
For a saved quote `expiration_time` is always set; an unset one is
treated as not expired (the branch is unreachable for stored rows). -/
def Quote.is_expired (now : ℚ) (q : Quote) : Bool :=
  match q.expiration_time with
  | some e => decide (now > e)
  | none => false

/-- `Currency.objects.get(code=code, active=True)`: the unique active
currency with the given code (`code` is the primary key, so `find?` on a
well-formed table is that unique row, `none` models `DoesNotExist`). -/
def findActiveCurrency (st : FxState) (code : String) : Option Currency :=
  st.currencies.find? (fun c => c.code == code && c.active)

/-- `Currency.objects.get(code=code)`: lookup with no `active` filter,
as used by `update_rates_for_currency`. -/
def findCurrency (st : FxState) (code : String) : Option Currency :=
  st.currencies.find? (fun c => c.code == code)

/-- `Rate.objects.get(source=source, target=target)`: the unique rate row
for the exact ordered pair (`unique_together = ['source', 'target']`). -/
def findRate (st : FxState) (source target : String) : Option Rate :=
  st.rates.find? (fun r => r.source == source && r.target == target)

/-- The exact rational value of the Python float literal `0.01` in
`forms.py` — the IEEE-754 double nearest 0.01, which is strictly greater
than 1/100.  `min_value=0.01` hands this float unconverted to Django's
`MinValueValidator`. -/
def MIN_VALUE_FLOAT : ℚ := 5764607523034235 / 576460752303423488

/-- `forms.DecimalField(max_digits=20, decimal_places=2, min_value=0.01)`:
`MinValueValidator` rejects a cleaned amount strictly below the float
`0.01` (comparing the `Decimal` against the float exactly, so the
two-decimal amount 0.01 itself is rejected and the smallest accepted one
is 0.02); the amount has at most 2 decimal places and at most 20 digits
in total. -/
def validAmount (a : ℚ) : Bool :=
  decide (MIN_VALUE_FLOAT ≤ a) && (a * 100).den == 1 && decide (a < 10 ^ 18)

/-- Validation errors raised by `fx.forms.QuoteRequestForm`; the
rate-availability error carries the codes of the missing pair, as in
`f"Exchange rate not available for {source.code}/{target.code}"`. -/
inductive FormError where
  | invalidSourceCurrency (code : String)
  | invalidTargetCurrency (code : String)
  | invalidAmount
  | sameCurrency
  | rateNotAvailable (source target : String)
  deriving Repr, DecidableEq

/-- The form's `cleaned_data` on success. -/
structure CleanedData where
  source_currency : Currency
  target_currency : Currency
  amount : ℚ
  deriving Repr, DecidableEq

/-- Python's `str.upper()` as used by the form's `clean_*` methods:
upper-case every character. -/
def pyUpper (s : String) : String :=
  ⟨s.data.map Char.toUpper⟩

/-- `fx.forms.QuoteRequestForm` validation: per-field cleaning
(`clean_source_currency` / `clean_target_currency` upper-case the code
and require an active currency; the amount field enforces its bounds),
then `clean()` which — only when both currencies resolved — rejects
`source == target` and, otherwise, a missing rate row for the exact
ordered pair. -/
def QuoteRequestForm.validate (st : FxState) (source_code target_code : String)
    (amount : ℚ) : Except (List FormError) CleanedData :=
  let su := (pyUpper source_code)
  let tu := (pyUpper target_code)
  let src := findActiveCurrency st su
  let tgt := findActiveCurrency st tu
  let fieldErrors : List FormError :=
    (if src = none then [FormError.invalidSourceCurrency su] else []) ++
    (if tgt = none then [FormError.invalidTargetCurrency tu] else []) ++
    (if validAmount amount then [] else [FormError.invalidAmount])
  match src, tgt with
  | some s, some t =>
    let crossErrors : List FormError :=
      if s.code = t.code then [FormError.sameCurrency]
      else if findRate st s.code t.code = none then
        [FormError.rateNotAvailable s.code t.code]
      else []
    match fieldErrors ++ crossErrors with
    | [] => .ok ⟨s, t, amount⟩
    | errs => .error errs
  | _, _ => .error fieldErrors

/-- Outcome of `QuoteViewSet.create`: HTTP 400 with the form errors, 201
with the created quote, or an unhandled `Rate.DoesNotExist` (a 500;
unreachable when the rate checked by the form still exists). -/
inductive CreateResult where
  | badRequest (errors : List FormError)
  | created (q : Quote)
  | serverError
  deriving Repr, DecidableEq

/-- `fx.views.QuoteViewSet.create`: validate the request with
`QuoteRequestForm`; on failure return 400 and leave the store untouched;
on success read the rate row for the ordered pair, compute
`result = amount * rate.mean` in exact decimal arithmetic, and persist a
new quote (whose `save` stamps creation and expiration times). -/
def QuoteViewSet.create (st : FxState) (validity now : ℚ) (newId : Nat)
    (source_code target_code : String) (amount : ℚ) :
    CreateResult × FxState :=
  match QuoteRequestForm.validate st source_code target_code amount with
  | .error errs => (.badRequest errs, st)
  | .ok cd =>
    match findRate st cd.source_currency.code cd.target_currency.code with
    | none => (.serverError, st)
    | some rate_obj =>
      let result := cd.amount * rate_obj.mean
      let q0 : Quote :=
        { quote_id := newId
          source_currency := cd.source_currency.code
          target_currency := cd.target_currency.code
          amount := cd.amount
          rate := rate_obj.mean
          result := result
          time_created := none
          time_updated := none
          expiration_time := none }
      let q := q0.save validity now
      (.created q, { st with quotes := st.quotes ++ [q] })

/-- Outcome of `QuoteViewSet.retrieve`: 404, 410 or 200 with the quote. -/
inductive RetrieveResult where
  | notFound
  | expired
  | ok (q : Quote)
  deriving Repr, DecidableEq

/-- `fx.views.QuoteViewSet.retrieve`: `get_object_or_404` by primary key,
then the `is_expired` check; the handler performs no write, so the state
passes through unchanged in every branch. -/
def QuoteViewSet.retrieve (st : FxState) (now : ℚ) (pk : Nat) :
    RetrieveResult × FxState :=
  match st.quotes.find? (fun q => q.quote_id == pk) with
  | none => (.notFound, st)
  | some q => if q.is_expired now then (.expired, st) else (.ok q, st)

/-! ## `fx/services.py` -/

/-- `Rate.objects.order_by('-last_updated').first()`, reduced to what
`should_refresh_rates` reads from it: the latest `last_updated`
timestamp, `none` when the table is empty. -/
def latestUpdated (rates : List Rate) : Option ℚ :=
  rates.foldl (fun acc r =>
    match acc with
    | none => some r.last_updated
    | some m => some (max m r.last_updated)) none

/-- `fx.services.should_refresh_rates`: refresh is due when no rate row
exists, or when `(now - latest.last_updated) >= refresh_interval`. -/
def should_refresh_rates (now refresh_interval : ℚ) (rates : List Rate) :
    Bool :=
  match latestUpdated rates with
  | none => true
  | some t => decide (now - t ≥ refresh_interval)

/-- The fixed spread `Decimal('0.005')` of `update_rates_for_currency`. -/
def spread : ℚ := 5 / 1000

/-- Rows of a rate table that carry the given ordered (source, target)
key; the `unique_together` constraint says there is at most one. -/
def rowsKey (rates : List Rate) (s t : String) : List Rate :=
  rates.filter (fun r => r.source == s && r.target == t)

/-- The `unique_together = ['source', 'target']` constraint on the rate
table: no two rows share the ordered (source, target) key. -/
def keyUnique (rates : List Rate) : Prop :=
  rates.Pairwise (fun a b => a.source ≠ b.source ∨ a.target ≠ b.target)

instance (rates : List Rate) : Decidable (keyUnique rates) := by
  unfold keyUnique; infer_instance

/-- The `defaults=…` part of `Rate.objects.update_or_create`: overwrite
`mean`/`buying`/`selling` (and the `auto_now` timestamp) of a row when it
carries the ordered key, leave it alone otherwise. -/
def overwriteRate (src tgt : String) (mean buying selling now : ℚ)
    (r : Rate) : Rate :=
  if r.source == src && r.target == tgt then
    { r with mean := mean, buying := buying, selling := selling,
             last_updated := now }
  else r

/-- `Rate.objects.update_or_create(source=…, target=…, defaults=…)`:
overwrite the existing row for the ordered key, or append a fresh row;
the flag is Django's `created`. -/
def update_or_create_rate (rates : List Rate) (src tgt : String)
    (mean buying selling now : ℚ) : List Rate × Bool :=
  if rates.any (fun r => r.source == src && r.target == tgt) then
    (rates.map (overwriteRate src tgt mean buying selling now), false)
  else
    (rates ++ [{ source := src, target := tgt, mean := mean,
                 buying := buying, selling := selling,
                 last_updated := now }], true)

/-- The `rates` object of a provider response body: the dict of
target-code / numeric-rate pairs (Python dict keys are unique). -/
structure RatesData where
  rates : List (String × ℚ)
  deriving Repr, DecidableEq

/-- One iteration of the loop in `update_rates_for_currency`: look the
target code up in the currency registry (no `active` filter); on
`Currency.DoesNotExist` skip the pair, otherwise compute
`buying = mean * (1 - spread)`, `selling = mean * (1 + spread)` and
upsert by the ordered (source, target) key. -/
def applyRateEntry (currencies : List Currency) (base : String) (now : ℚ)
    (acc : List Rate) (entry : String × ℚ) : List Rate :=
  match currencies.find? (fun c => c.code == entry.1) with
  | none => acc
  | some target_currency =>
    let mean_rate := entry.2
    let buying_rate := mean_rate * (1 - spread)
    let selling_rate := mean_rate * (1 + spread)
    (update_or_create_rate acc base target_currency.code
      mean_rate buying_rate selling_rate now).1

/-- `fx.services.update_rates_for_currency`: fold the provider response's
pairs over the rate table with `applyRateEntry`. -/
def update_rates_for_currency (st : FxState) (now : ℚ) (base : Currency)
    (rates_data : RatesData) : FxState :=
  { st with
      rates := rates_data.rates.foldl
        (applyRateEntry st.currencies base.code now) st.rates }

/-- Body of the provider's HTTP response: either JSON that fails to parse
(`ValueError` from `response.json()`) or a parsed object with its
`success` flag and `rates` dict. -/
inductive JsonBody where
  | malformed (msg : String)
  | parsed (success : Bool) (rates : List (String × ℚ))
  deriving Repr, DecidableEq

/-- Outcome of the `requests.get` call in `fetch_rates_for_currency`:
a timeout, another request exception, or a response with a status code
and a body. -/
inductive HttpOutcome where
  | timeout
  | requestException (msg : String)
  | response (status_code : Nat) (body : JsonBody)
  deriving Repr, DecidableEq

/-- `fx.services.fetch_rates_for_currency`: return `None` when the API
key is unconfigured (falsy), on timeout, on any other request exception,
on a non-200 status, on a JSON decode error, and when the parsed body's
`success` flag is not true; otherwise return the rates data.  Every
failure path of the Python function ends in `return None`, so the
embedding is a total function into `Option`. -/
def fetch_rates_for_currency (api_key : String) (outcome : HttpOutcome) :
    Option RatesData :=
  if api_key = "" then none
  else
    match outcome with
    | .timeout => none
    | .requestException _ => none
    | .response status_code body =>
      if status_code ≠ 200 then none
      else
        match body with
        | .malformed _ => none
        | .parsed success rates =>
          if !success then none else some ⟨rates⟩

/-- Result of `update_all_exchange_rates` beside the new state: `none`
when the run was skipped (refresh not due, or no active currency),
`some (successful_fetches, failed_fetches)` when the per-base loop ran. -/
def UpdateAllReport := Option (Nat × Nat)

/-- One iteration of the per-base loop of `update_all_exchange_rates`:
compute the target codes (all active currencies except the base), skip
the base when there are none, otherwise fetch — a `None` result counts
as a failed fetch and changes nothing, a successful fetch is upserted and
counted. -/
def refreshStep (active_currencies : List Currency) (now : ℚ)
    (api_key : String) (outcomes : Currency → HttpOutcome)
    (acc : FxState × Nat × Nat) (base : Currency) : FxState × Nat × Nat :=
  let target_codes := (active_currencies.filter
    (fun c => c.code ≠ base.code)).map (fun c => c.code)
  if target_codes.isEmpty then acc
  else
    match fetch_rates_for_currency api_key (outcomes base) with
    | some rates_data =>
      (update_rates_for_currency acc.1 now base rates_data,
       acc.2.1 + 1, acc.2.2)
    | none => (acc.1, acc.2.1, acc.2.2 + 1)

/-- `fx.services.update_all_exchange_rates`: skip when
`should_refresh_rates` is false; enumerate active currencies and skip
when none; then run `refreshStep` over every active base, tracking
success and failure counts.  The provider outcome of each base's single
HTTP call is given by the oracle `outcomes`. -/
def update_all_exchange_rates (st : FxState) (now refresh_interval : ℚ)
    (api_key : String) (outcomes : Currency → HttpOutcome) :
    FxState × UpdateAllReport :=
  if !should_refresh_rates now refresh_interval st.rates then (st, none)
  else
    let active_currencies := st.currencies.filter (fun c => c.active)
    if active_currencies.isEmpty then (st, none)
    else
      let r := active_currencies.foldl
        (refreshStep active_currencies now api_key outcomes) (st, 0, 0)
      (r.1, some (r.2.1, r.2.2))

/-- Modelled from the spec: the preconditions that claim C4 lists for
`create_quote` — both codes resolve case-insensitively to an active
currency, the codes are distinct, and a rate row exists for the exact
ordered pair.  To be compared with `QuoteRequestForm.validate`. -/
def specQuotePreconditions (st : FxState) (source_code target_code : String) :
    Bool :=
  match findActiveCurrency st (pyUpper source_code),
        findActiveCurrency st (pyUpper target_code) with
  | some s, some t => (s.code != t.code) && (findRate st s.code t.code).isSome
  | _, _ => false

/-! ## Helper lemmas -/

theorem filter_map_eq_of_fixed {α} (p : α → Bool) (f : α → α) (l : List α)
    (hpf : ∀ a, p (f a) = p a) (hp : ∀ a, p a = true → f a = a) :
    (l.map f).filter p = l.filter p := by
  induction l with
  | nil => rfl
  | cons a l ih =>
    simp only [List.map_cons, List.filter_cons, hpf]
    by_cases h : p a = true
    · simp [h, hp a h, ih]
    · simp [h, ih]

theorem filter_map_comm {α} (p : α → Bool) (f : α → α) (l : List α)
    (hpf : ∀ a, p (f a) = p a) :
    (l.map f).filter p = (l.filter p).map f := by
  induction l with
  | nil => rfl
  | cons a l ih =>
    simp only [List.map_cons, List.filter_cons, hpf]
    by_cases h : p a = true
    · simp [h, ih]
    · simp [h, ih]

theorem overwriteRate_source (src tgt : String) (m b sl now : ℚ) (r : Rate) :
    (overwriteRate src tgt m b sl now r).source = r.source := by
  unfold overwriteRate
  by_cases h : (r.source == src && r.target == tgt) = true
  · simp [h]
  · simp [h]

theorem overwriteRate_target (src tgt : String) (m b sl now : ℚ) (r : Rate) :
    (overwriteRate src tgt m b sl now r).target = r.target := by
  unfold overwriteRate
  by_cases h : (r.source == src && r.target == tgt) = true
  · simp [h]
  · simp [h]

theorem rowsKey_update_other (rates : List Rate) (src tgt s t : String)
    (m b sl now : ℚ) (h : s ≠ src ∨ t ≠ tgt) :
    rowsKey (update_or_create_rate rates src tgt m b sl now).1 s t
      = rowsKey rates s t := by
  unfold update_or_create_rate rowsKey
  by_cases hany : rates.any (fun r => r.source == src && r.target == tgt)
  · simp only [hany, if_true]
    apply filter_map_eq_of_fixed
    · intro a
      rw [overwriteRate_source, overwriteRate_target]
    · intro a hpa
      unfold overwriteRate
      by_cases ha : (a.source == src && a.target == tgt) = true
      · exfalso
        simp only [Bool.and_eq_true, beq_iff_eq] at ha hpa
        rcases h with h | h
        · exact h (hpa.1 ▸ ha.1.symm ▸ rfl)
        · exact h (hpa.2 ▸ ha.2.symm ▸ rfl)
      · simp [ha]
  · simp only [hany, if_false, List.filter_append]
    have : (([(⟨src, tgt, m, b, sl, now⟩ : Rate)]).filter
          (fun r => r.source == s && r.target == t)) = [] := by
      rcases h with h | h
      · simp [List.filter_cons, Ne.symm h]
      · simp [List.filter_cons, Ne.symm h]
    simp [this]

theorem rowsKey_update_same (rates : List Rate) (src tgt : String)
    (m b sl now : ℚ) (hu : (rowsKey rates src tgt).length ≤ 1) :
    rowsKey (update_or_create_rate rates src tgt m b sl now).1 src tgt
      = [⟨src, tgt, m, b, sl, now⟩] := by
  unfold update_or_create_rate
  by_cases hany : rates.any (fun r => r.source == src && r.target == tgt) = true
  · simp only [hany, if_true]
    have hcomm : rowsKey (rates.map (overwriteRate src tgt m b sl now)) src tgt
        = (rowsKey rates src tgt).map (overwriteRate src tgt m b sl now) := by
      unfold rowsKey
      apply filter_map_comm
      intro a
      rw [overwriteRate_source, overwriteRate_target]
    rw [hcomm]
    rcases List.any_eq_true.mp hany with ⟨x, hx, hpx⟩
    have hxmem : x ∈ rowsKey rates src tgt := List.mem_filter.mpr ⟨hx, hpx⟩
    cases hrk : rowsKey rates src tgt with
    | nil =>
      rw [hrk] at hxmem
      exact absurd hxmem (List.not_mem_nil x)
    | cons r0 rest =>
      have hp0 : (r0.source == src && r0.target == tgt) = true := by
        have hmem : r0 ∈ rowsKey rates src tgt := by
          rw [hrk]; exact List.mem_cons_self _ _
        exact (List.mem_filter.mp hmem).2
      have hrest : rest = [] := by
        rw [hrk] at hu
        simp only [List.length_cons] at hu
        have : rest.length = 0 := by omega
        exact List.length_eq_zero.mp this
      subst hrest
      simp only [List.map_cons, List.map_nil]
      congr 1
      unfold overwriteRate
      rw [if_pos hp0]
      simp only [Bool.and_eq_true, beq_iff_eq] at hp0
      cases r0
      simp only at hp0
      simp [hp0.1, hp0.2]
  · rw [if_neg hany]
    unfold rowsKey
    rw [List.filter_append]
    have h1 : rates.filter (fun r => r.source == src && r.target == tgt)
        = [] := by
      rw [List.filter_eq_nil_iff]
      intro a ha hpa
      exact hany (List.any_eq_true.mpr ⟨a, ha, hpa⟩)
    rw [h1]
    simp [List.filter_cons]

theorem keyUnique_rowsKey_le_one (rates : List Rate) (hu : keyUnique rates)
    (s t : String) : (rowsKey rates s t).length ≤ 1 := by
  induction rates with
  | nil => simp [rowsKey]
  | cons r rs ih =>
    rw [keyUnique, List.pairwise_cons] at hu
    unfold rowsKey
    rw [List.filter_cons]
    by_cases hp : (r.source == s && r.target == t) = true
    · rw [if_pos hp]
      have hrest : rowsKey rs s t = [] := by
        rw [rowsKey, List.filter_eq_nil_iff]
        intro a ha hpa
        have hdis := hu.1 a ha
        simp only [Bool.and_eq_true, beq_iff_eq] at hp hpa
        rcases hdis with hd | hd
        · exact hd (hp.1.trans hpa.1.symm)
        · exact hd (hp.2.trans hpa.2.symm)
      rw [rowsKey] at hrest
      rw [hrest]
      simp
    · rw [if_neg hp]
      exact ih hu.2

theorem rowsKey_applyEntry_other (currencies : List Currency) (base : String)
    (now : ℚ) (acc : List Rate) (entry : String × ℚ) (s t : String)
    (h : s ≠ base ∨ t ≠ entry.1) :
    rowsKey (applyRateEntry currencies base now acc entry) s t
      = rowsKey acc s t := by
  unfold applyRateEntry
  cases hc : currencies.find? (fun c => c.code == entry.1) with
  | none => rfl
  | some c =>
    have hcode : c.code = entry.1 := by
      have := List.find?_some hc
      simpa using this
    exact rowsKey_update_other _ _ _ _ _ _ _ _ _ (by rw [hcode]; exact h)

theorem rowsKey_applyEntry_same (currencies : List Currency) (base : String)
    (now : ℚ) (acc : List Rate) (tc : String) (rv : ℚ) (c : Currency)
    (hc : currencies.find? (fun x => x.code == tc) = some c)
    (hu : (rowsKey acc base tc).length ≤ 1) :
    rowsKey (applyRateEntry currencies base now acc (tc, rv)) base tc
      = [⟨base, tc, rv, rv * (1 - spread), rv * (1 + spread), now⟩] := by
  have hcode : c.code = tc := by
    have := List.find?_some hc
    simpa using this
  unfold applyRateEntry
  rw [hc]
  dsimp only
  rw [hcode]
  exact rowsKey_update_same _ _ _ _ _ _ _ hu

theorem applyEntry_preserves_unique (currencies : List Currency) (base : String)
    (now : ℚ) (acc : List Rate) (entry : String × ℚ)
    (hu : ∀ s t, (rowsKey acc s t).length ≤ 1) :
    ∀ s t, (rowsKey (applyRateEntry currencies base now acc entry) s t).length
      ≤ 1 := by
  obtain ⟨tc, rv⟩ := entry
  intro s t
  by_cases hkey : s = base ∧ t = tc
  · cases hc : currencies.find? (fun c => c.code == tc) with
    | none =>
      unfold applyRateEntry
      rw [hc]
      exact hu s t
    | some c =>
      rw [hkey.1, hkey.2]
      rw [rowsKey_applyEntry_same currencies base now acc tc rv c hc
        (hu base tc)]
      simp
  · rw [rowsKey_applyEntry_other currencies base now acc (tc, rv) s t
      (by tauto)]
    exact hu s t

theorem rowsKey_applyBatch_other (currencies : List Currency) (base : String)
    (now : ℚ) (entries : List (String × ℚ)) (acc : List Rate) (s t : String)
    (h : ∀ e ∈ entries, s ≠ base ∨ t ≠ e.1) :
    rowsKey (entries.foldl (applyRateEntry currencies base now) acc) s t
      = rowsKey acc s t := by
  induction entries generalizing acc with
  | nil => rfl
  | cons e es ih =>
    rw [List.foldl_cons]
    rw [ih _ (fun e' he' => h e' (List.mem_cons_of_mem _ he'))]
    exact rowsKey_applyEntry_other currencies base now acc e s t
      (h e (List.mem_cons_self _ _))

theorem applyBatch_preserves_unique (currencies : List Currency)
    (base : String) (now : ℚ) (entries : List (String × ℚ)) (acc : List Rate)
    (hu : ∀ s t, (rowsKey acc s t).length ≤ 1) :
    ∀ s t,
      (rowsKey (entries.foldl (applyRateEntry currencies base now) acc) s
        t).length ≤ 1 := by
  induction entries generalizing acc with
  | nil => exact hu
  | cons e es ih =>
    rw [List.foldl_cons]
    exact ih _ (applyEntry_preserves_unique currencies base now acc e hu)

theorem rowsKey_applyBatch_mem (currencies : List Currency) (base : String)
    (now : ℚ) (entries : List (String × ℚ)) (acc : List Rate)
    (tc : String) (rv : ℚ) (c : Currency)
    (hmem : (tc, rv) ∈ entries)
    (hnodup : (entries.map Prod.fst).Nodup)
    (hc : currencies.find? (fun x => x.code == tc) = some c)
    (hu : ∀ s t, (rowsKey acc s t).length ≤ 1) :
    rowsKey (entries.foldl (applyRateEntry currencies base now) acc) base tc
      = [⟨base, tc, rv, rv * (1 - spread), rv * (1 + spread), now⟩] := by
  induction entries generalizing acc with
  | nil => exact absurd hmem (List.not_mem_nil _)
  | cons e es ih =>
    rw [List.foldl_cons]
    have hnodup' : (es.map Prod.fst).Nodup := by
      rw [List.map_cons, List.nodup_cons] at hnodup
      exact hnodup.2
    rcases List.mem_cons.mp hmem with heq | hmem'
    · have hhead : e.1 = tc := by rw [← heq]
      have hnotin : ∀ e' ∈ es, (base ≠ base ∨ tc ≠ e'.1) := by
        intro e' he'
        right
        intro hEq
        rw [List.map_cons, List.nodup_cons] at hnodup
        exact hnodup.1 (hhead ▸ hEq ▸ List.mem_map_of_mem Prod.fst he')
      rw [rowsKey_applyBatch_other currencies base now es _ base tc hnotin]
      rw [← heq]
      exact rowsKey_applyEntry_same currencies base now acc tc rv c hc
        (hu base tc)
    · exact ih _ hmem' hnodup'
        (applyEntry_preserves_unique currencies base now acc e hu)

theorem validate_ok (st : FxState) (s t : String) (a : ℚ) (S T : Currency)
    (r : Rate)
    (hs : findActiveCurrency st (pyUpper s) = some S)
    (ht : findActiveCurrency st (pyUpper t) = some T)
    (hne : S.code ≠ T.code)
    (ha : validAmount a = true)
    (hr : findRate st S.code T.code = some r) :
    QuoteRequestForm.validate st s t a = .ok ⟨S, T, a⟩ := by
  unfold QuoteRequestForm.validate
  simp [hs, ht, hne, ha, hr]

/-- C2: a quote's `expiration_time` is its creation time plus the
configured validity window (default 60 seconds), assigned exactly once at
the first save; no later save recomputes or changes it. -/
theorem quote_expiration_set_once (q : Quote) (validity now : ℚ)
    (hfresh : q.expiration_time = none) (hnew : q.time_created = none) :
    (q.save validity now).expiration_time = some (now + validity) ∧
    (q.save validity now).time_created = some now ∧
    (∀ q' : Quote, ∀ e validity' now', q'.expiration_time = some e →
      (q'.save validity' now').expiration_time = some e) ∧
    QUOTE_VALIDITY_DEFAULT = 60 := by
  refine ⟨?_, ?_, ?_, rfl⟩
  · unfold Quote.save
    simp [hfresh]
  · unfold Quote.save
    simp [hfresh, hnew]
  · intro q' e validity' now' he
    unfold Quote.save
    simp [he]

/-- C5: `should_refresh_rates` as a function of now, the latest stored
rate timestamp and the interval: true with zero rate rows; false while
the time since the latest update is below the interval — and then
`update_all_exchange_rates` skips as a no-op; true once the interval has
elapsed. -/
theorem should_refresh_policy (now refresh_interval t : ℚ)
    (rates : List Rate) (hlatest : latestUpdated rates = some t) :
    (should_refresh_rates now refresh_interval [] = true) ∧
    (now - t < refresh_interval →
      should_refresh_rates now refresh_interval rates = false ∧
      ∀ st : FxState, ∀ api_key outcomes, st.rates = rates →
        update_all_exchange_rates st now refresh_interval api_key outcomes
          = (st, none)) ∧
    (now - t ≥ refresh_interval →
      should_refresh_rates now refresh_interval rates = true) := by
  refine ⟨rfl, ?_, ?_⟩
  · intro h
    have hfalse : should_refresh_rates now refresh_interval rates = false := by
      unfold should_refresh_rates
      rw [hlatest]
      simp only [ge_iff_le, decide_eq_false_iff_not, not_le]
      exact h
    refine ⟨hfalse, ?_⟩
    intro st api_key outcomes hst
    unfold update_all_exchange_rates
    rw [hst, hfalse]
    simp
  · intro h
    unfold should_refresh_rates
    rw [hlatest]
    simp only [ge_iff_le, decide_eq_true_eq]
    exact h

/-- C10: quote expiry uses a strict inequality — retrieved at the exact
instant `now = expiration_time` the quote is returned as not expired;
`Expired` comes back only for `now` strictly greater. -/
theorem quote_expiry_boundary_strict (st : FxState) (q : Quote) (pk : Nat)
    (e now : ℚ)
    (hfind : st.quotes.find? (fun x => x.quote_id == pk) = some q)
    (hexp : q.expiration_time = some e) :
    QuoteViewSet.retrieve st e pk = (.ok q, st) ∧
    Quote.is_expired e q = false ∧
    (now > e → QuoteViewSet.retrieve st now pk = (.expired, st)) ∧
    (now ≤ e → QuoteViewSet.retrieve st now pk = (.ok q, st)) := by
  have hexpired : ∀ n : ℚ, q.is_expired n = decide (n > e) := by
    intro n
    unfold Quote.is_expired
    rw [hexp]
  refine ⟨?_, ?_, ?_, ?_⟩
  · unfold QuoteViewSet.retrieve
    rw [hfind]
    simp [hexpired]
  · rw [hexpired]; simp
  · intro h
    unfold QuoteViewSet.retrieve
    rw [hfind]
    simp [hexpired, h]
  · intro h
    unfold QuoteViewSet.retrieve
    rw [hfind]
    simp [hexpired, not_lt.mpr h]

/-- C1: for a currency pair with an existing rate row and a valid amount,
`create_quote` returns a quote whose `rate` field is exactly the row's
`mean` at call time and whose `result` field is exactly `amount * rate`,
computed in exact fixed-point arithmetic, and persists exactly that
quote. -/
theorem create_quote_exact_result (st : FxState) (validity now : ℚ)
    (newId : Nat) (s t : String) (a : ℚ) (S T : Currency) (r : Rate)
    (hs : findActiveCurrency st (pyUpper s) = some S)
    (ht : findActiveCurrency st (pyUpper t) = some T)
    (hne : S.code ≠ T.code)
    (ha : validAmount a = true)
    (hr : findRate st S.code T.code = some r) :
    QuoteViewSet.create st validity now newId s t a =
      (.created ⟨newId, S.code, T.code, a, r.mean, a * r.mean,
         some now, some now, some (now + validity)⟩,
       { st with quotes := st.quotes ++
           [⟨newId, S.code, T.code, a, r.mean, a * r.mean,
             some now, some now, some (now + validity)⟩] }) := by
  unfold QuoteViewSet.create
  rw [validate_ok st s t a S T r hs ht hne ha hr]
  dsimp only
  rw [hr]
  rfl

/-- C3: `get_quote` returns NotFound exactly when no quote with the id is
stored; Expired when the quote exists and now is strictly past its
expiration time, with the store left unchanged (expiry is derived, not a
deletion); otherwise the quote itself; and it never returns NotFound for
an id that `create_quote` just returned. -/
theorem get_quote_cases (st : FxState) (now e : ℚ) (pk : Nat) (q : Quote) :
    (st.quotes.find? (fun x => x.quote_id == pk) = none →
      QuoteViewSet.retrieve st now pk = (.notFound, st)) ∧
    (st.quotes.find? (fun x => x.quote_id == pk) = some q →
      q.expiration_time = some e →
      ((now > e → QuoteViewSet.retrieve st now pk = (.expired, st)) ∧
       (¬ now > e → QuoteViewSet.retrieve st now pk = (.ok q, st)))) ∧
    ((QuoteViewSet.retrieve st now pk).2 = st) ∧
    (∀ validity tCreate newId s t a qc st',
      QuoteViewSet.create st validity tCreate newId s t a
        = (.created qc, st') →
      ∀ now', (QuoteViewSet.retrieve st' now' qc.quote_id).1
        ≠ .notFound) := by
  refine ⟨?_, ?_, ?_, ?_⟩
  · intro hnone
    unfold QuoteViewSet.retrieve
    rw [hnone]
  · intro hsome hexp
    have hexpired : ∀ n : ℚ, q.is_expired n = decide (n > e) := by
      intro n
      unfold Quote.is_expired
      rw [hexp]
    constructor
    · intro h
      unfold QuoteViewSet.retrieve
      rw [hsome]
      simp [hexpired, h]
    · intro h
      unfold QuoteViewSet.retrieve
      rw [hsome]
      simp [hexpired, h]
  · unfold QuoteViewSet.retrieve
    cases hf : st.quotes.find? (fun x => x.quote_id == pk) with
    | none => rfl
    | some x =>
      by_cases hex : x.is_expired now
      · simp [hex]
      · simp [hex]
  · intro validity tCreate newId s t a qc st' hc now'
    unfold QuoteViewSet.create at hc
    cases hv : QuoteRequestForm.validate st s t a with
    | error errs =>
      rw [hv] at hc
      simp at hc
    | ok cd =>
      rw [hv] at hc
      dsimp only at hc
      cases hr : findRate st cd.source_currency.code
          cd.target_currency.code with
      | none =>
        rw [hr] at hc
        simp at hc
      | some rate_obj =>
        rw [hr] at hc
        simp only [Prod.mk.injEq, CreateResult.created.injEq] at hc
        obtain ⟨hq, hst⟩ := hc
        have hsq : st'.quotes = st.quotes ++ [qc] := by
          rw [← hst, hq]
        have h2 : ([qc].find? (fun x => x.quote_id == qc.quote_id))
            = some qc := by
          simp [List.find?]
        unfold QuoteViewSet.retrieve
        cases hf : st'.quotes.find? (fun x => x.quote_id == qc.quote_id) with
        | none =>
          exfalso
          rw [hsq, List.find?_append, h2] at hf
          cases hfs : st.quotes.find? (fun x => x.quote_id == qc.quote_id) with
          | none => rw [hfs] at hf; simp at hf
          | some y => rw [hfs] at hf; simp at hf
        | some x =>
          by_cases hex : x.is_expired now'
          · simp [hex]
          · simp [hex]

/-- C4: with a well-formed amount, `create_quote` fails with validation
errors — leaving the store untouched — exactly when one of its
preconditions fails: a source or target code not resolving
(case-insensitively) to an active currency, source equal to target, or no
rate row for the exact ordered pair; in the missing-rate case the single
error names the missing pair. -/
theorem create_quote_validation_complete (st : FxState) (validity now : ℚ)
    (newId : Nat) (s t : String) (a : ℚ) (ha : validAmount a = true) :
    ((∃ errs, QuoteViewSet.create st validity now newId s t a
        = (.badRequest errs, st)) ↔
      specQuotePreconditions st s t = false) ∧
    (∀ S T, findActiveCurrency st (pyUpper s) = some S →
      findActiveCurrency st (pyUpper t) = some T → S.code ≠ T.code →
      findRate st S.code T.code = none →
      QuoteViewSet.create st validity now newId s t a
        = (.badRequest [FormError.rateNotAvailable S.code T.code], st)) := by
  have hpos : specQuotePreconditions st s t = true →
      ∃ q2 st2, QuoteViewSet.create st validity now newId s t a
        = (.created q2, st2) := by
    intro hp
    unfold specQuotePreconditions at hp
    cases hsrc : findActiveCurrency st (pyUpper s) with
    | none => rw [hsrc] at hp; simp at hp
    | some S =>
      cases htgt : findActiveCurrency st (pyUpper t) with
      | none => rw [hsrc, htgt] at hp; simp at hp
      | some T =>
        rw [hsrc, htgt] at hp
        simp only [Bool.and_eq_true, bne_iff_ne, ne_eq,
          Option.isSome_iff_exists] at hp
        obtain ⟨hne, r, hr⟩ := hp
        have key : QuoteViewSet.create st validity now newId s t a =
            (.created (Quote.save validity now
                ⟨newId, S.code, T.code, a, r.mean, a * r.mean,
                  none, none, none⟩),
             { st with quotes := st.quotes ++ [Quote.save validity now
                ⟨newId, S.code, T.code, a, r.mean, a * r.mean,
                  none, none, none⟩] }) := by
          unfold QuoteViewSet.create
          rw [validate_ok st s t a S T r hsrc htgt hne ha hr]
          dsimp only
          rw [hr]
        exact ⟨_, _, key⟩
  have hneg : specQuotePreconditions st s t = false →
      ∃ errs, QuoteViewSet.create st validity now newId s t a
        = (.badRequest errs, st) := by
    intro hp
    unfold specQuotePreconditions at hp
    cases hsrc : findActiveCurrency st (pyUpper s) with
    | none =>
      cases htgt : findActiveCurrency st (pyUpper t) with
      | none =>
        have key : QuoteViewSet.create st validity now newId s t a =
            (.badRequest [FormError.invalidSourceCurrency (pyUpper s),
              FormError.invalidTargetCurrency (pyUpper t)], st) := by
          unfold QuoteViewSet.create QuoteRequestForm.validate
          simp [hsrc, htgt, ha]
        exact ⟨_, key⟩
      | some T =>
        have key : QuoteViewSet.create st validity now newId s t a =
            (.badRequest [FormError.invalidSourceCurrency (pyUpper s)],
              st) := by
          unfold QuoteViewSet.create QuoteRequestForm.validate
          simp [hsrc, htgt, ha]
        exact ⟨_, key⟩
    | some S =>
      cases htgt : findActiveCurrency st (pyUpper t) with
      | none =>
        have key : QuoteViewSet.create st validity now newId s t a =
            (.badRequest [FormError.invalidTargetCurrency (pyUpper t)],
              st) := by
          unfold QuoteViewSet.create QuoteRequestForm.validate
          simp [hsrc, htgt, ha]
        exact ⟨_, key⟩
      | some T =>
        rw [hsrc, htgt] at hp
        dsimp only at hp
        by_cases hcode : S.code = T.code
        · have key : QuoteViewSet.create st validity now newId s t a =
              (.badRequest [FormError.sameCurrency], st) := by
            unfold QuoteViewSet.create QuoteRequestForm.validate
            simp [hsrc, htgt, ha, hcode]
          exact ⟨_, key⟩
        · have hrn : findRate st S.code T.code = none := by
            cases hfr : findRate st S.code T.code with
            | none => rfl
            | some r =>
              exfalso
              rw [hfr] at hp
              simp [bne_iff_ne, hcode] at hp
          have key : QuoteViewSet.create st validity now newId s t a =
              (.badRequest [FormError.rateNotAvailable S.code T.code],
                st) := by
            unfold QuoteViewSet.create QuoteRequestForm.validate
            simp [hsrc, htgt, ha, hcode, hrn]
          exact ⟨_, key⟩
  constructor
  · constructor
    · rintro ⟨errs, heq⟩
      by_contra htrue
      rw [Bool.not_eq_false] at htrue
      obtain ⟨q2, st2, hcr⟩ := hpos htrue
      rw [hcr] at heq
      simp at heq
    · exact hneg
  · intro S T hs ht hne hrn
    unfold QuoteViewSet.create QuoteRequestForm.validate
    simp [hs, ht, ha, hne, hrn]

/-- C6: the refresh upsert is idempotent per batch — applying the same
provider response twice leaves exactly one rate row per ordered
(source, target) pair of the batch, the ordered pair being the upsert key
(source,target distinct from target,source, no auto-inversion), with the
second write's values and timestamp winning; the per-key uniqueness
invariant holds afterwards, and rows whose source is not the base are
untouched. -/
theorem refresh_upsert_idempotent (st : FxState) (t1 t2 : ℚ)
    (base : Currency) (rd : RatesData)
    (hu : keyUnique st.rates)
    (hnodup : (rd.rates.map Prod.fst).Nodup) :
    (∀ tc rv c, (tc, rv) ∈ rd.rates →
      st.currencies.find? (fun x => x.code == tc) = some c →
      rowsKey (update_rates_for_currency
          (update_rates_for_currency st t1 base rd) t2 base rd).rates
        base.code tc
        = [⟨base.code, tc, rv, rv * (1 - spread), rv * (1 + spread),
            t2⟩]) ∧
    (∀ s t, (rowsKey (update_rates_for_currency
        (update_rates_for_currency st t1 base rd) t2 base rd).rates
          s t).length ≤ 1) ∧
    (∀ s t, s ≠ base.code → rowsKey (update_rates_for_currency
        (update_rates_for_currency st t1 base rd) t2 base rd).rates s t
        = rowsKey st.rates s t) := by
  have hP : ∀ s t, (rowsKey st.rates s t).length ≤ 1 :=
    keyUnique_rowsKey_le_one st.rates hu
  have hrates2 : (update_rates_for_currency
      (update_rates_for_currency st t1 base rd) t2 base rd).rates
      = rd.rates.foldl (applyRateEntry st.currencies base.code t2)
          (rd.rates.foldl (applyRateEntry st.currencies base.code t1)
            st.rates) := rfl
  have hP1 : ∀ s t, (rowsKey (rd.rates.foldl
      (applyRateEntry st.currencies base.code t1) st.rates) s t).length
        ≤ 1 :=
    applyBatch_preserves_unique _ _ _ _ _ hP
  refine ⟨?_, ?_, ?_⟩
  · intro tc rv c hmem hc
    rw [hrates2]
    exact rowsKey_applyBatch_mem st.currencies base.code t2 rd.rates _
      tc rv c hmem hnodup hc hP1
  · intro s t
    rw [hrates2]
    exact applyBatch_preserves_unique _ _ _ _ _ hP1 s t
  · intro s t hs
    rw [hrates2]
    rw [rowsKey_applyBatch_other _ _ _ _ _ _ _ (fun e _ => Or.inl hs)]
    rw [rowsKey_applyBatch_other _ _ _ _ _ _ _ (fun e _ => Or.inl hs)]

/-- C7: every pair the refresh upserts stores
buying = mean × (1 − 0.005) and selling = mean × (1 + 0.005), with the
spread fixed at 0.005, and consequently buying < mean < selling whenever
the mean rate is positive. -/
theorem refresh_spread_bounds :
    spread = 0.005 ∧
    (∀ currencies base now acc tc rv,
      ∀ row ∈ applyRateEntry currencies base now acc (tc, rv),
        row ∈ acc ∨ (row.mean = rv ∧ row.buying = rv * (1 - spread) ∧
          row.selling = rv * (1 + spread) ∧ row.last_updated = now)) ∧
    (∀ rv : ℚ, 0 < rv →
      rv * (1 - spread) < rv ∧ rv < rv * (1 + spread)) := by
  refine ⟨by norm_num [spread], ?_, ?_⟩
  · intro currencies base now acc tc rv row hrow
    unfold applyRateEntry at hrow
    cases hc : currencies.find? (fun c => c.code == tc) with
    | none =>
      rw [hc] at hrow
      exact Or.inl hrow
    | some c =>
      rw [hc] at hrow
      dsimp only at hrow
      unfold update_or_create_rate at hrow
      by_cases hany : acc.any (fun r => r.source == base &&
          r.target == c.code) = true
      · rw [if_pos hany] at hrow
        dsimp only at hrow
        rcases List.mem_map.mp hrow with ⟨a, ha, hfa⟩
        unfold overwriteRate at hfa
        by_cases hm : (a.source == base && a.target == c.code) = true
        · rw [if_pos hm] at hfa
          right
          rw [← hfa]
          exact ⟨rfl, rfl, rfl, rfl⟩
        · rw [if_neg hm] at hfa
          exact Or.inl (hfa ▸ ha)
      · rw [if_neg hany] at hrow
        dsimp only at hrow
        rcases List.mem_append.mp hrow with ha | hnew
        · exact Or.inl ha
        · right
          rcases List.mem_singleton.mp hnew with rfl
          exact ⟨rfl, rfl, rfl, rfl⟩
  · intro rv h
    unfold spread
    constructor <;> nlinarith

/-- C8 counterexample: with USD active and EUR present but inactive in
the registry, `update_rates_for_currency` still upserts a USD→EUR rate
row — a known-but-inactive target is not skipped, contradicting the claim
that a pair is upserted only when the target is active. -/
theorem refresh_inactive_target_upserted :
    ((update_rates_for_currency
        ⟨[⟨"USD", true⟩, ⟨"EUR", false⟩], [], []⟩ 0 ⟨"USD", true⟩
        ⟨[("EUR", 11/10)]⟩).rates.any
      (fun r => r.source == "USD" && r.target == "EUR")) = true ∧
    findActiveCurrency ⟨[⟨"USD", true⟩, ⟨"EUR", false⟩], [], []⟩ "EUR"
      = none := by
  constructor
  · decide
  · decide

/-- C8 (amended): every base currency fetched by the refresh is active
— the whole run depends only on the provider outcomes of the active
currencies — and a (target code, rate) pair is upserted exactly when the
target code is known to the registry, active or not: unknown codes are
silently skipped, known codes get their row written. -/
theorem refresh_registry_scope :
    (∀ st : FxState, ∀ now ri k,
      ∀ outcomes outcomes' : Currency → HttpOutcome,
      (∀ c ∈ st.currencies, c.active = true → outcomes c = outcomes' c) →
      update_all_exchange_rates st now ri k outcomes
        = update_all_exchange_rates st now ri k outcomes') ∧
    (∀ currencies base now acc tc rv,
      currencies.find? (fun x => x.code == tc) = none →
      applyRateEntry currencies base now acc (tc, rv) = acc) ∧
    (∀ currencies base now acc tc rv c,
      currencies.find? (fun x => x.code == tc) = some c →
      (∀ s t, (rowsKey acc s t).length ≤ 1) →
      rowsKey (applyRateEntry currencies base now acc (tc, rv)) base tc
        = [⟨base, tc, rv, rv * (1 - spread), rv * (1 + spread),
            now⟩]) := by
  refine ⟨?_, ?_, ?_⟩
  · intro st now ri k outcomes outcomes' hagree
    unfold update_all_exchange_rates
    by_cases hsr : should_refresh_rates now ri st.rates
    · simp only [hsr]
      have hfold : (st.currencies.filter (fun c => c.active)).foldl
          (refreshStep (st.currencies.filter (fun c => c.active)) now k
            outcomes) (st, 0, 0)
          = (st.currencies.filter (fun c => c.active)).foldl
          (refreshStep (st.currencies.filter (fun c => c.active)) now k
            outcomes') (st, 0, 0) := by
        apply List.foldl_ext
        intro acc b hb
        have hbmem := List.mem_filter.mp hb
        unfold refreshStep
        rw [hagree b hbmem.1 hbmem.2]
      rw [hfold]
    · simp [hsr]
  · intro currencies base now acc tc rv hc
    unfold applyRateEntry
    rw [hc]
  · intro currencies base now acc tc rv c hc hP
    exact rowsKey_applyEntry_same currencies base now acc tc rv c hc
      (hP base tc)

theorem refreshStep_counts (actives : List Currency) (now : ℚ) (k : String)
    (outcomes : Currency → HttpOutcome) (bases : List Currency)
    (z : FxState × Nat × Nat) :
    ((bases.foldl (refreshStep actives now k outcomes) z).2.1
      = z.2.1 + (bases.filter (fun b =>
          !((actives.filter (fun c => c.code ≠ b.code)).map
            (fun c => c.code)).isEmpty
          && (fetch_rates_for_currency k (outcomes b)).isSome)).length) ∧
    ((bases.foldl (refreshStep actives now k outcomes) z).2.2
      = z.2.2 + (bases.filter (fun b =>
          !((actives.filter (fun c => c.code ≠ b.code)).map
            (fun c => c.code)).isEmpty
          && !(fetch_rates_for_currency k (outcomes b)).isSome)).length) := by
  induction bases generalizing z with
  | nil => simp
  | cons b bs ih =>
    simp only [List.foldl_cons, List.filter_cons]
    by_cases ht : (((actives.filter (fun c => c.code ≠ b.code)).map
        (fun c => c.code)).isEmpty) = true
    · have hstep : refreshStep actives now k outcomes z b = z := by
        unfold refreshStep
        rw [if_pos ht]
      rw [hstep, ht]
      simp only [Bool.not_true, Bool.false_and, Bool.false_eq_true,
        if_false]
      exact ih z
    · have ht' : (((actives.filter (fun c => c.code ≠ b.code)).map
          (fun c => c.code)).isEmpty) = false := by
        rw [Bool.not_eq_true] at ht
        exact ht
      cases hf : fetch_rates_for_currency k (outcomes b) with
      | some rd =>
        have hstep : refreshStep actives now k outcomes z b
            = (update_rates_for_currency z.1 now b rd,
               z.2.1 + 1, z.2.2) := by
          unfold refreshStep
          rw [if_neg ht, hf]
        rw [hstep, ht']
        simp only [Bool.not_false, Bool.true_and, Option.isSome_some,
          Bool.not_true, Bool.false_eq_true, if_true, if_false]
        constructor
        · rw [(ih _).1]
          simp only [List.length_cons]
          omega
        · rw [(ih _).2]
      | none =>
        have hstep : refreshStep actives now k outcomes z b
            = (z.1, z.2.1, z.2.2 + 1) := by
          unfold refreshStep
          rw [if_neg ht, hf]
        rw [hstep, ht']
        simp only [Bool.not_false, Bool.true_and, Option.isSome_none,
          Bool.false_eq_true, if_false, if_true]
        constructor
        · rw [(ih _).1]
        · rw [(ih _).2]
          simp only [List.length_cons]
          omega

theorem refreshStep_state_all_fail (actives : List Currency) (now : ℚ)
    (k : String) (outcomes : Currency → HttpOutcome)
    (bases : List Currency) (z : FxState × Nat × Nat)
    (hall : ∀ b ∈ bases, fetch_rates_for_currency k (outcomes b) = none) :
    (bases.foldl (refreshStep actives now k outcomes) z).1 = z.1 := by
  induction bases generalizing z with
  | nil => rfl
  | cons b bs ih =>
    rw [List.foldl_cons]
    rw [ih _ (fun b' hb' => hall b' (List.mem_cons_of_mem _ hb'))]
    unfold refreshStep
    by_cases ht : (((actives.filter (fun c => c.code ≠ b.code)).map
        (fun c => c.code)).isEmpty) = true
    · rw [if_pos ht]
    · rw [if_neg ht, hall b (List.mem_cons_self _ _)]

/-- C9: every provider/network failure mode — missing API credential,
timeout, request exception, non-200 status, malformed JSON,
provider-reported error — makes the fetch return `None` instead of
raising; in the refresh loop the counts of successful and failed fetches
are exactly the partition of the processed bases by fetch outcome, so a
failing base is only counted and skipped while all other bases are still
processed; and if every fetch fails the store is left unchanged. -/
theorem refresh_failure_isolation :
    (∀ outcome, fetch_rates_for_currency "" outcome = none) ∧
    (∀ k msg status body rates,
      fetch_rates_for_currency k HttpOutcome.timeout = none ∧
      fetch_rates_for_currency k (.requestException msg) = none ∧
      (status ≠ 200 →
        fetch_rates_for_currency k (.response status body) = none) ∧
      fetch_rates_for_currency k (.response 200 (.malformed msg))
        = none ∧
      fetch_rates_for_currency k (.response 200 (.parsed false rates))
        = none) ∧
    (∀ st : FxState, ∀ now ri k outcomes succ fail st2,
      update_all_exchange_rates st now ri k outcomes
        = (st2, some (succ, fail)) →
      succ = ((st.currencies.filter (fun c => c.active)).filter
        (fun b =>
          !(((st.currencies.filter (fun c => c.active)).filter
            (fun c => c.code ≠ b.code)).map (fun c => c.code)).isEmpty
          && (fetch_rates_for_currency k (outcomes b)).isSome)).length ∧
      fail = ((st.currencies.filter (fun c => c.active)).filter
        (fun b =>
          !(((st.currencies.filter (fun c => c.active)).filter
            (fun c => c.code ≠ b.code)).map (fun c => c.code)).isEmpty
          && !(fetch_rates_for_currency k (outcomes b)).isSome)).length) ∧
    (∀ st : FxState, ∀ now ri k outcomes,
      (∀ b, fetch_rates_for_currency k (outcomes b) = none) →
      (update_all_exchange_rates st now ri k outcomes).1 = st) := by
  refine ⟨?_, ?_, ?_, ?_⟩
  · intro outcome
    unfold fetch_rates_for_currency
    rw [if_pos rfl]
  · intro k msg status body rates
    refine ⟨?_, ?_, ?_, ?_, ?_⟩
    · unfold fetch_rates_for_currency
      by_cases hk : k = "" <;> simp [hk]
    · unfold fetch_rates_for_currency
      by_cases hk : k = "" <;> simp [hk]
    · intro hst
      unfold fetch_rates_for_currency
      by_cases hk : k = "" <;> simp [hk, hst]
    · unfold fetch_rates_for_currency
      by_cases hk : k = "" <;> simp [hk]
    · unfold fetch_rates_for_currency
      by_cases hk : k = "" <;> simp [hk]
  · intro st now ri k outcomes succ fail st2 heq
    unfold update_all_exchange_rates at heq
    by_cases hsr : should_refresh_rates now ri st.rates = true
    · by_cases hemp : (st.currencies.filter (fun c => c.active)).isEmpty
          = true
      · rw [hsr] at heq
        simp [hemp] at heq
      · rw [hsr] at heq
        simp only [Bool.not_true, Bool.false_eq_true, if_false, hemp,
          Prod.mk.injEq, Option.some.injEq] at heq
        have hcounts := refreshStep_counts
          (st.currencies.filter (fun c => c.active)) now k outcomes
          (st.currencies.filter (fun c => c.active)) (st, 0, 0)
        obtain ⟨-, rfl, rfl⟩ := heq
        constructor
        · rw [hcounts.1]
          simp
        · rw [hcounts.2]
          simp
    · rw [Bool.not_eq_true] at hsr
      rw [hsr] at heq
      simp at heq
  · intro st now ri k outcomes hall
    unfold update_all_exchange_rates
    by_cases hsr : should_refresh_rates now ri st.rates = true
    · by_cases hemp : (st.currencies.filter (fun c => c.active)).isEmpty
          = true
      · simp [hsr, hemp]
      · rw [hsr]
        simp only [Bool.not_true, Bool.false_eq_true, if_false, hemp]
        exact refreshStep_state_all_fail _ _ _ _ _ _ (fun b _ => hall b)
    · rw [Bool.not_eq_true] at hsr
      rw [hsr]
      simp

theorem create_quote_exact_result_witness :
    QuoteViewSet.create
      ⟨[⟨"USD", true⟩, ⟨"KES", true⟩],
       [⟨"USD", "KES", 130, 129, 131, 0⟩], []⟩
      60 1000 7 "usd" "KES" 100 =
      (.created ⟨7, "USD", "KES", 100, 130, 13000,
         some 1000, some 1000, some 1060⟩,
       ⟨[⟨"USD", true⟩, ⟨"KES", true⟩],
        [⟨"USD", "KES", 130, 129, 131, 0⟩],
        [⟨7, "USD", "KES", 100, 130, 13000,
          some 1000, some 1000, some 1060⟩]⟩) := by
  have h := create_quote_exact_result
    ⟨[⟨"USD", true⟩, ⟨"KES", true⟩],
     [⟨"USD", "KES", 130, 129, 131, 0⟩], []⟩
    60 1000 7 "usd" "KES" 100 ⟨"USD", true⟩ ⟨"KES", true⟩
    ⟨"USD", "KES", 130, 129, 131, 0⟩
    (by decide) (by decide) (by decide) (by norm_num [validAmount, MIN_VALUE_FLOAT])
    (by decide)
  rw [h]
  norm_num

theorem quote_expiration_set_once_witness :
    ((⟨1, "USD", "KES", 100, 130, 13000, none, none, none⟩ : Quote).save
      60 500).expiration_time = some 560 := by
  have h := quote_expiration_set_once
    ⟨1, "USD", "KES", 100, 130, 13000, none, none, none⟩ 60 500 rfl rfl
  rw [h.1]
  norm_num

theorem get_quote_cases_witness :
    QuoteViewSet.retrieve
      ⟨[], [], [⟨7, "USD", "KES", 100, 130, 13000,
        some 0, some 0, some 60⟩]⟩ 61 7
      = (.expired, ⟨[], [], [⟨7, "USD", "KES", 100, 130, 13000,
          some 0, some 0, some 60⟩]⟩) := by
  have h := get_quote_cases
    ⟨[], [], [⟨7, "USD", "KES", 100, 130, 13000,
      some 0, some 0, some 60⟩]⟩
    61 60 7 ⟨7, "USD", "KES", 100, 130, 13000, some 0, some 0, some 60⟩
  exact (h.2.1 (by decide) rfl).1 (by norm_num)

theorem create_quote_validation_complete_witness :
    ∃ errs, QuoteViewSet.create
      ⟨[⟨"USD", true⟩], [⟨"USD", "USD", 1, 1, 1, 0⟩], []⟩
      60 0 1 "USD" "USD" 100
      = (.badRequest errs,
         ⟨[⟨"USD", true⟩], [⟨"USD", "USD", 1, 1, 1, 0⟩], []⟩) := by
  have h := create_quote_validation_complete
    ⟨[⟨"USD", true⟩], [⟨"USD", "USD", 1, 1, 1, 0⟩], []⟩
    60 0 1 "USD" "USD" 100 (by norm_num [validAmount, MIN_VALUE_FLOAT])
  exact h.1.mpr (by decide)

theorem should_refresh_policy_witness :
    should_refresh_rates 100 300 [⟨"USD", "KES", 130, 129, 131, 50⟩]
      = false ∧
    should_refresh_rates 500 300 [⟨"USD", "KES", 130, 129, 131, 50⟩]
      = true := by
  have h1 := should_refresh_policy 100 300 50
    [⟨"USD", "KES", 130, 129, 131, 50⟩] rfl
  have h2 := should_refresh_policy 500 300 50
    [⟨"USD", "KES", 130, 129, 131, 50⟩] rfl
  exact ⟨(h1.2.1 (by norm_num)).1, h2.2.2 (by norm_num)⟩

theorem refresh_upsert_idempotent_witness :
    rowsKey (update_rates_for_currency
      (update_rates_for_currency
        ⟨[⟨"USD", true⟩, ⟨"KES", true⟩], [], []⟩
        10 ⟨"USD", true⟩ ⟨[("KES", 150)]⟩)
      20 ⟨"USD", true⟩ ⟨[("KES", 150)]⟩).rates "USD" "KES"
      = [⟨"USD", "KES", 150, 150 * (1 - spread), 150 * (1 + spread),
          20⟩] := by
  have h := refresh_upsert_idempotent
    ⟨[⟨"USD", true⟩, ⟨"KES", true⟩], [], []⟩ 10 20 ⟨"USD", true⟩
    ⟨[("KES", 150)]⟩ (by decide) (by decide)
  exact h.1 "KES" 150 ⟨"KES", true⟩ (by decide) (by decide)

theorem refresh_spread_bounds_witness :
    (200 : ℚ) * (1 - spread) < 200 ∧ (200 : ℚ) < 200 * (1 + spread) := by
  exact refresh_spread_bounds.2.2 200 (by norm_num)

theorem refresh_registry_scope_witness :
    applyRateEntry [⟨"USD", true⟩] "USD" 5 [] ("XXX", 3) = [] := by
  exact refresh_registry_scope.2.1 [⟨"USD", true⟩] "USD" 5 [] "XXX" 3
    (by decide)

theorem refresh_failure_isolation_witness :
    fetch_rates_for_currency "key" (.response 503 (.malformed "oops"))
      = none := by
  exact (refresh_failure_isolation.2.1 "key" "oops" 503
    (.malformed "oops") []).2.2.1 (by decide)

theorem quote_expiry_boundary_strict_witness :
    QuoteViewSet.retrieve
      ⟨[], [], [⟨7, "USD", "KES", 100, 130, 13000,
        some 0, some 0, some 60⟩]⟩ 60 7
      = (.ok ⟨7, "USD", "KES", 100, 130, 13000,
          some 0, some 0, some 60⟩,
         ⟨[], [], [⟨7, "USD", "KES", 100, 130, 13000,
           some 0, some 0, some 60⟩]⟩) := by
  have h := quote_expiry_boundary_strict
    ⟨[], [], [⟨7, "USD", "KES", 100, 130, 13000,
      some 0, some 0, some 60⟩]⟩
    ⟨7, "USD", "KES", 100, 130, 13000, some 0, some 0, some 60⟩
    7 60 61 (by decide) rfl
  exact h.1
